import Mathlib

/-!
Shallow embedding of the trackcutter audio splitter (src/trackcutter.c) and
proofs about its specification claims.

The embedding translates the C source function by function:

* window/read-ahead arithmetic from `init_state` (lines 1991-2031);
* the frame source `fetch_next_frame` (lines 1510-1561), with the file
  decoder abstracted to a count of frames it can still deliver;
* the per-frame DSP stage `filter_new_frame` (lines 1448-1478) over an
  arbitrary commutative ring of sample values (the C code uses IEEE doubles;
  claims about it are stated as exact arithmetic);
* the RMS comparison `we_have_signal` (lines 1312-1324) and the threshold
  computed in `init_state` (lines 2033-2038);
* the option parser fragment `parse_track_range` (lines 854-878);
* the segmentation state machine `update_context` (lines 1893-1970), the
  lead-in buffer (lines 1564-1602, 2045-2052), `force_end_of_track`
  (lines 1854-1872), `commit_current_frame` (lines 1875-1889) and the
  driver `cutter_loop` (lines 2090-2113).  File/stream side effects are
  modelled as an event trace; the per-tick signal verdict is abstracted
  into an oracle indexed by the centre frame position.
-/

/-- RMS window length in frames: `state.rms_window_len = samplerate * RMS_WINDOW_PERIOD / 1000`
with `RMS_WINDOW_PERIOD = 50` (trackcutter.c line 1991); C integer division on
non-negative operands. -/
def rms_window_len (samplerate : ℕ) : ℕ :=
  samplerate * 50 / 1000

/-- Read-ahead frame count: `state.ra_frame_cnt = (main_buf_edge - main_buf_cen) / numchannels`
where `main_buf_edge = main_buf + w*numchannels` and
`main_buf_cen = main_buf + (w/2)*numchannels` (lines 1994-1999), hence `w - w/2`. -/
def ra_frame_cnt (w : ℕ) : ℕ :=
  w - w / 2

/-- The three logical frame indices tracked by the ring-buffer cursors:
`centre` is the frame index `main_buf_cen` points at (equal to
`state.cur_frame_pos`), `newest` the index of the newest admitted frame
(pointed at by `main_buf_head`), `readpos` the input file read position.
Indices are integers, as `sf_count_t` is signed. -/
structure BufPositions where
  centre : ℤ
  newest : ℤ
  readpos : ℤ
deriving DecidableEq

/-- Cursor frame indices right after the priming phase of `init_state`
(lines 2005-2028): `ra_frame_cnt w` frames with indices
`start .. start + ra - 1` are read into ring slots `[w/2, w)`; the centre
cursor sits at slot `w/2` (frame `start`), the head at slot `w-1`
(frame `start + ra - 1`), and the input position is `start + ra`. -/
def prime_positions (start : ℤ) (w : ℕ) : BufPositions :=
  ⟨start, start + (ra_frame_cnt w : ℤ) - 1, start + (ra_frame_cnt w : ℤ)⟩

/-- Frame-index effect of one steady-state tick before EOF:
`fetch_next_frame` reads one frame (advancing the file position),
increments `cur_frame_pos` and calls `advance_buf_ptrs` (lines 1417-1441),
which moves every cursor forward by one frame. -/
def advance_buf_ptrs (p : BufPositions) : BufPositions :=
  ⟨p.centre + 1, p.newest + 1, p.readpos + 1⟩

/-- Cursor frame indices after the priming phase followed by `k` steady-state
ticks (all before EOF). -/
def positions_after (start : ℤ) (w : ℕ) : ℕ → BufPositions
  | 0 => prime_positions start w
  | k + 1 => advance_buf_ptrs (positions_after start w k)

/-- The four `options` fields read or written by `parse_track_range`
(`options_t`, lines 183-194). -/
structure TrackRangeOptions where
  track_num_start : ℤ
  track_num_end : ℤ
  start_frame_idx : ℤ
  end_frame_idx : ℤ
deriving DecidableEq

/-- `SF_COUNT_MAX` (largest `sf_count_t`). -/
def sf_count_max : ℤ := 2 ^ 63 - 1

/-- `INT_MAX`. -/
def int_max : ℤ := 2 ^ 31 - 1

/-- Defaults set by `init_options` (lines 402-414): the structure is zeroed,
then `end_frame_idx = SF_COUNT_MAX` and `track_num_end = INT_MAX`. -/
def init_options : TrackRangeOptions :=
  ⟨0, int_max, 0, sf_count_max⟩

/-- `parse_track_range` (lines 854-878) after the two boundaries `a`
(default 1) and `b` (default `INT_MAX`) have been parsed by
`parse_int_boundary`: it stores them into `track_num_start` and
`track_num_end`, then performs its validity check — which, verbatim from
line 871, tests `options.end_frame_idx < options.start_frame_idx`.
`none` models fatal termination with the reversed-range error message. -/
def parse_track_range (a b : ℤ) (o : TrackRangeOptions) : Option TrackRangeOptions :=
  let o2 : TrackRangeOptions :=
    { o with track_num_start := a, track_num_end := b }
  if o2.end_frame_idx < o2.start_frame_idx then none else some o2

/-- The mutable state consulted and updated by `fetch_next_frame`
(lines 1510-1561).  `codec_left` abstracts the decoder: the number of frames
`sf_readf_double` can still deliver before it reports EOF. -/
structure FetchState where
  in_eof : Bool
  frames_remaining : ℕ
  codec_left : ℕ
deriving DecidableEq

/-- `fetch_next_frame` (lines 1510-1561), restricted to its control state.
Returns the new state, the function result (`TRUE` iff more frames remain),
and whether the frame delivered into the ring tail was a zero-filled pad.
While not at EOF and frames remain, it decrements `frames_remaining` and asks
the decoder for a frame; if the decoder reports EOF it raises `in_eof` and
clamps `frames_remaining` to at most `ra` (lines 1528-1537), delivering a pad.
Otherwise it pads, decrementing `frames_remaining` while positive, and
reports end of stream once it reaches zero. -/
def fetch_next_frame (ra : ℕ) (s : FetchState) : FetchState × Bool × Bool :=
  if s.in_eof = false ∧ 0 < s.frames_remaining then
    let rem := s.frames_remaining - 1
    if 0 < s.codec_left then
      (⟨false, rem, s.codec_left - 1⟩, true, false)
    else
      (⟨true, min rem ra, 0⟩, true, true)
  else if 0 < s.frames_remaining then
    (⟨s.in_eof, s.frames_remaining - 1, s.codec_left⟩, true, true)
  else
    (s, false, true)

/-- State after `n` successive invocations of `fetch_next_frame`. -/
def fetch_iter (ra : ℕ) : ℕ → FetchState → FetchState
  | 0, s => s
  | n + 1, s => fetch_iter ra n (fetch_next_frame ra s).1

/-- The per-channel DSP state read and written by `filter_new_frame`
(`state_t`, lines 250-282): the two rings (`w` frames of `ch` channels
each), the running sum of squares, the high-pass filter memory, and the
residual accumulator.  Samples live in an arbitrary commutative ring `α`;
the C code uses `double`, and the claims about this stage are stated as
exact arithmetic. -/
structure FilterState (w ch : ℕ) (α : Type) where
  main_buf : Fin w → Fin ch → α
  sq_buf : Fin w → Fin ch → α
  x_sq_ttl : Fin ch → α
  hpf_out : Fin ch → α
  hpf_rej : Fin ch → α
  hpf_prev_out : Fin ch → α
  hpf_prev_rej : Fin ch → α
  hpf_rej_ttl : Fin ch → α
  frames_proc_ttl : ℕ

/-- The write of the incoming raw frame into ring slot `p` performed by
`sf_readf_double(state.in_file, state.main_buf_tail, 1)` (line 1522) or the
`memset` pad; after `advance_buf_ptrs` this slot is the new head. -/
def fetch_write {w ch : ℕ} {α : Type} (p : Fin w) (frame : Fin ch → α)
    (s : FilterState w ch α) : FilterState w ch α :=
  { s with main_buf := Function.update s.main_buf p frame }

/-- `filter_new_frame` (lines 1448-1478) acting on ring slot `p` (the slot
`main_buf_head`/`sq_buf_head` point at).  Per channel: subtract the square
being evicted from this slot out of `x_sq_ttl`, add the configured DC
offset to the head sample, compute the one-pole high-pass output
`hpf_out = alpha * (x - hpf_prev_rej)` and rejection `hpf_rej = x - hpf_out`,
update the filter memory, replace the head sample by `hpf_out` only when the
filter is enabled (otherwise accumulate the rejection into `hpf_rej_ttl`),
then store the square of the (possibly replaced) head sample into the `sq`
ring and add it to `x_sq_ttl`. -/
def filter_new_frame {w ch : ℕ} {α : Type} [CommRing α] (alpha : α) (dc : Fin ch → α)
    (hpf_enabled : Bool) (p : Fin w) (s : FilterState w ch α) : FilterState w ch α :=
  let x1 : Fin ch → α := fun c => s.main_buf p c + dc c
  let out : Fin ch → α := fun c => alpha * (x1 c - s.hpf_prev_rej c)
  let rej : Fin ch → α := fun c => x1 c - out c
  let newmain : Fin ch → α := fun c => if hpf_enabled then out c else x1 c
  let newsq : Fin ch → α := fun c => newmain c * newmain c
  { main_buf := Function.update s.main_buf p newmain
    sq_buf := Function.update s.sq_buf p newsq
    x_sq_ttl := fun c => s.x_sq_ttl c - s.sq_buf p c + newsq c
    hpf_out := out
    hpf_rej := rej
    hpf_prev_out := out
    hpf_prev_rej := rej
    hpf_rej_ttl := fun c => if hpf_enabled then s.hpf_rej_ttl c else s.hpf_rej_ttl c + rej c
    frames_proc_ttl := s.frames_proc_ttl + 1 }

/-- The DSP state as `init_state` leaves it before priming: both rings come
from `calloc` (lines 1993, 1996) and every accumulator from the `memset`
(line 1980), so everything is zero. -/
def init_filter_state (w ch : ℕ) (α : Type) [CommRing α] : FilterState w ch α :=
  ⟨fun _ _ => 0, fun _ _ => 0, fun _ => 0, fun _ => 0, fun _ => 0,
    fun _ => 0, fun _ => 0, fun _ => 0, 0⟩

/-- A sequence of frame admissions: for each step, the raw frame is written
into the given ring slot and `filter_new_frame` is run on it.  This covers
both the priming loop of `init_state` (lines 2015-2024, slots `w/2 .. w-1`)
and the steady-state ticks (the slot the cursors wrapped to). -/
def run_filter_steps {w ch : ℕ} {α : Type} [CommRing α] (alpha : α) (dc : Fin ch → α)
    (hpf_enabled : Bool) :
    List (Fin w × (Fin ch → α)) → FilterState w ch α → FilterState w ch α
  | [], s => s
  | step :: rest, s =>
    run_filter_steps alpha dc hpf_enabled rest
      (filter_new_frame alpha dc hpf_enabled step.1 (fetch_write step.1 step.2 s))

/-- The scanning loop of `we_have_signal` (lines 1316-1322):
`for(c = 0; !res && c < numchannels; c++) res = n_x_nf_sq < x_sq_ttl[c]`. -/
def signal_scan {α : Type} [LinearOrder α] (nsq : α) : List α → Bool → Bool
  | [], res => res
  | y :: rest, res => if res then res else signal_scan nsq rest (decide (nsq < y))

/-- `we_have_signal` (lines 1312-1324): `TRUE` iff scanning the channels in
order finds one whose running sum of squares strictly exceeds `n_x_nf_sq`. -/
def we_have_signal {α : Type} [LinearOrder α] (numchannels : ℕ) (nsq : α) (x : ℕ → α) : Bool :=
  signal_scan nsq ((List.range numchannels).map x) false

/-- The noise-floor amplitude computed by `init_state` line 2035:
`x_nf = exp2(noise_floor_dbfs / (20.0 * log10(2)))`, in exact real
arithmetic. -/
noncomputable def x_nf (noise_floor_dbfs : ℝ) : ℝ :=
  (2 : ℝ) ^ (noise_floor_dbfs / (20 * Real.logb 10 2))

/-- The RMS comparison threshold computed by `init_state` line 2037:
`n_x_nf_sq = x_nf * x_nf * rms_window_len`. -/
noncomputable def n_x_nf_sq (noise_floor_dbfs : ℝ) (w : ℕ) : ℝ :=
  x_nf noise_floor_dbfs * x_nf noise_floor_dbfs * (w : ℝ)

/-- `cut_context_t` (lines 89-94). -/
inductive CutContext where
  | SILENCE
  | TRACK
  | TRACK_STARTING
  | TRACK_ENDING
deriving DecidableEq

/-- `cut_point_action_t` (lines 97-100). -/
inductive CutPointAction where
  | LOG_POINT
  | EXTRACT_TRACK
deriving DecidableEq

/-- Observable side effects of the cutting state machine: a centre frame
written to the current track file (`commit_current_frame`, extraction
mode), a track conclusion (a cut-sheet row from `print_track_cut` carrying
track number, start and end frame index, or the closing of the output file
at the same boundary), and the lead-in overflow warning of
`leadin_buf_add` (line 1575). -/
inductive CutEvent where
  | commit
  | trackEnd (num : ℕ) (startPos : ℕ) (endPos : ℕ)
  | leadinOverflow
deriving DecidableEq

/-- The configuration consulted by the cutting loop, after `init_state` has
converted the option periods into frame counts (lines 2039-2047):
`min_signal_len`, `min_silence_len`, `min_track_len`, the track-number
ceiling `options.track_num_end`, and the read-ahead count. The lead-in
buffer capacity is `min_signal_len` frames (line 2047). -/
structure CutParams where
  cut_point_action : CutPointAction
  min_signal_len : ℕ
  min_silence_len : ℕ
  min_track_len : ℕ
  track_num_end : ℕ
  ra_frame_cnt : ℕ

/-- The mutable state consulted by `update_context` and `cutter_loop`:
segmentation context, dwell counter (`sf_count_t`, so an integer), frame
position, track counter, track start, number of frames currently held in
the lead-in buffer (`(leadin_buf_end - leadin_buf) / numchannels`), whether
a per-track output file is open (`state.out_file != NULL`), and the frame
source state. -/
structure CutterState where
  cut_context : CutContext
  time_to_live : ℤ
  cur_frame_pos : ℕ
  cur_track_num : ℕ
  cur_track_start : ℕ
  leadin_len : ℕ
  out_open : Bool
  fs : FetchState
deriving DecidableEq

/-- `commit_current_frame` (lines 1875-1889): writes the centre frame to the
output file in extraction mode; does nothing in cut-log mode. -/
def commit_current_frame (p : CutParams) : List CutEvent :=
  if p.cut_point_action = CutPointAction.EXTRACT_TRACK then [CutEvent.commit] else []

/-- `leadin_buf_add` (lines 1564-1578): in extraction mode, appends the
centre frame to the lead-in buffer when below its `min_signal_len`-frame
capacity, otherwise drops the frame and emits the overflow warning. -/
def leadin_buf_add (p : CutParams) (s : CutterState) : CutterState × List CutEvent :=
  if p.cut_point_action = CutPointAction.EXTRACT_TRACK then
    if s.leadin_len < p.min_signal_len then
      ({ s with leadin_len := s.leadin_len + 1 }, [])
    else
      (s, [CutEvent.leadinOverflow])
  else (s, [])

/-- `leadin_buf_purge` (lines 1594-1602): resets the lead-in buffer in
extraction mode. -/
def leadin_buf_purge (p : CutParams) (s : CutterState) : CutterState :=
  if p.cut_point_action = CutPointAction.EXTRACT_TRACK then { s with leadin_len := 0 } else s

/-- `force_end_of_track` (lines 1854-1872): in cut-log mode, prints the
row for the current track if the context is `TRACK` or `TRACK_ENDING`
(`print_track_cut`, lines 1376-1413: track number, `cur_track_start`,
`cur_frame_pos`); in extraction mode, closes the output file if one is
open. -/
def force_end_of_track (p : CutParams) (s : CutterState) : CutterState × List CutEvent :=
  match p.cut_point_action with
  | CutPointAction.LOG_POINT =>
    if s.cut_context = CutContext.TRACK ∨ s.cut_context = CutContext.TRACK_ENDING then
      (s, [CutEvent.trackEnd s.cur_track_num s.cur_track_start s.cur_frame_pos])
    else (s, [])
  | CutPointAction.EXTRACT_TRACK =>
    if s.out_open then
      ({ s with out_open := false }, [CutEvent.trackEnd s.cur_track_num s.cur_track_start s.cur_frame_pos])
    else (s, [])

/-- `create_new_out_file` (lines 1765-1828): fetches the next track name,
opens the new output file, flushes the lead-in buffer into it
(`leadin_buf_commit`) and purges the buffer. -/
def create_new_out_file (s : CutterState) : CutterState :=
  { s with out_open := true, leadin_len := 0 }

/-- `update_context` (lines 1893-1970), the four-state segmentation machine,
evaluated once per tick on the centre frame; `sig` is the value of
`we_have_signal()` at this tick. -/
def update_context (p : CutParams) (sig : Bool) (s : CutterState) : CutterState × List CutEvent :=
  match s.cut_context with
  | CutContext.SILENCE =>
    if sig then
      leadin_buf_add p
        { s with
          cut_context := CutContext.TRACK_STARTING,
          time_to_live := (p.min_signal_len : ℤ) - 1,
          cur_track_start := s.cur_frame_pos }
    else (s, [])
  | CutContext.TRACK_STARTING =>
    if sig = false then
      ({ leadin_buf_purge p s with cut_context := CutContext.SILENCE }, [])
    else if 0 < s.time_to_live then
      let r := leadin_buf_add p s
      ({ r.1 with time_to_live := r.1.time_to_live - 1 }, r.2)
    else
      let s1 :=
        if p.cut_point_action = CutPointAction.EXTRACT_TRACK then
          create_new_out_file { s with cut_context := CutContext.TRACK }
        else { s with cut_context := CutContext.TRACK }
      (s1, commit_current_frame p)
  | CutContext.TRACK_ENDING =>
    if sig then
      ({ s with cut_context := CutContext.TRACK }, commit_current_frame p)
    else if 0 < s.time_to_live then
      ({ s with time_to_live := s.time_to_live - 1 }, commit_current_frame p)
    else
      let r := force_end_of_track p s
      ({ r.1 with cut_context := CutContext.SILENCE, cur_track_num := r.1.cur_track_num + 1 },
        commit_current_frame p ++ r.2)
  | CutContext.TRACK =>
    if sig = false ∧ s.cur_track_start + p.min_track_len ≤ s.cur_frame_pos then
      ({ s with cut_context := CutContext.TRACK_ENDING, time_to_live := (p.min_silence_len : ℤ) },
        commit_current_frame p)
    else (s, commit_current_frame p)

/-- The tail of one `cutter_loop` iteration: `fetch_next_frame` increments
`cur_frame_pos` (line 1557) and updates the frame-source state; returns
whether more frames remain. -/
def driver_tick (p : CutParams) (s : CutterState) : CutterState × Bool :=
  let r := fetch_next_frame p.ra_frame_cnt s.fs
  ({ s with fs := r.1, cur_frame_pos := s.cur_frame_pos + 1 }, r.2.1)

/-- The `do { update_context(); } while(fetch_next_frame() &&
cur_track_num <= track_num_end)` loop of `cutter_loop` (lines 2092-2096),
with an explicit fuel argument; every continuing iteration strictly
decreases `frames_remaining`, so fuel `frames_remaining + 1` is enough.
Returns the final state and the event trace. -/
def cutter_loop_go (p : CutParams) (sig : ℕ → Bool) : ℕ → CutterState → CutterState × List CutEvent
  | 0, s => (s, [])
  | fuel + 1, s =>
    let u := update_context p (sig s.cur_frame_pos) s
    let t := driver_tick p u.1
    if t.2 = true ∧ t.1.cur_track_num ≤ p.track_num_end then
      let rest := cutter_loop_go p sig fuel t.1
      (rest.1, u.2 ++ rest.2)
    else (t.1, u.2)

/-- `cutter_loop` (lines 2090-2113): run the loop, then, if the loop exited
because the frame supply (input or requested range) was exhausted
(`frames_remaining == 0`), issue a final `force_end_of_track`.  Returns the
final state, the loop event trace, and the exit event trace. -/
def cutter_loop (p : CutParams) (sig : ℕ → Bool) (s : CutterState) :
    CutterState × List CutEvent × List CutEvent :=
  let r := cutter_loop_go p sig (s.fs.frames_remaining + 1) s
  if r.1.fs.frames_remaining = 0 then
    let f := force_end_of_track p r.1
    (f.1, r.2, f.2)
  else (r.1, r.2, [])

/-- Number of track conclusions in an event trace. -/
def countEnds : List CutEvent → ℕ
  | [] => 0
  | CutEvent.trackEnd _ _ _ :: rest => countEnds rest + 1
  | _ :: rest => countEnds rest

/-- A track conclusion that respects the minimum-track-length lockout:
its end index is at least its start index plus `min_track_len`. -/
def end_respects_lockout (mtl : ℕ) : CutEvent → Bool
  | CutEvent.trackEnd _ st en => decide (st + mtl ≤ en)
  | _ => true

/-- In extraction mode, an output file is open whenever the context is
`TRACK` or `TRACK_ENDING` (it is opened on the transition into `TRACK` and
closed when the track ends). -/
def out_open_inv (p : CutParams) (s : CutterState) : Prop :=
  p.cut_point_action = CutPointAction.EXTRACT_TRACK →
    (s.cut_context = CutContext.TRACK ∨ s.cut_context = CutContext.TRACK_ENDING) →
    s.out_open = true

/-- In context `TRACK_ENDING` the lockout has already been checked:
the current position is at least `cur_track_start + min_track_len`. -/
def lockout_inv (p : CutParams) (s : CutterState) : Prop :=
  s.cut_context = CutContext.TRACK_ENDING →
    s.cur_track_start + p.min_track_len ≤ s.cur_frame_pos

/-- Lead-in buffer accounting (extraction mode): while in `TRACK_STARTING`
the buffered frame count plus the remaining dwell equals `min_signal_len`
with a non-negative dwell, and outside `TRACK_STARTING` the buffer is
empty. -/
def leadin_inv (p : CutParams) (s : CutterState) : Prop :=
  p.cut_point_action = CutPointAction.EXTRACT_TRACK →
    ((s.cut_context = CutContext.TRACK_STARTING →
        (s.leadin_len : ℤ) + s.time_to_live = (p.min_signal_len : ℤ) ∧ 0 ≤ s.time_to_live) ∧
      (s.cut_context ≠ CutContext.TRACK_STARTING → s.leadin_len = 0))

/- ------------------------------------------------------------------ -/
/- Theorems                                                            -/
/- ------------------------------------------------------------------ -/

/-- Closed form for the cursor frame indices `k` ticks after priming. -/
theorem positions_after_spec (start : ℤ) (w : ℕ) (k : ℕ) :
    positions_after start w k =
      ⟨start + k, start + (ra_frame_cnt w : ℤ) - 1 + k, start + (ra_frame_cnt w : ℤ) + k⟩ := by
  induction k with
  | zero => simp [positions_after, prime_positions]
  | succ n ih =>
    simp only [positions_after, ih, advance_buf_ptrs, BufPositions.mk.injEq]
    refine ⟨?_, ?_, ?_⟩ <;> push_cast <;> ring

/-- C2, as stated, is false: at sample rate 48000 the RMS window is
`W = 2400` frames and after priming the centre frame index is `0` while the
newest admitted frame index is `ra_frame_cnt W - 1 = 1199`, so the centre
does NOT equal the newest-admitted index minus `W/2 = 1200`; and at sample
rate 44100 (`W = 2205`, odd) the centre lags the input read position by
`1103 ≠ W/2 = 1102`. -/
theorem c2_counterexample :
    ¬ ((positions_after 0 (rms_window_len 48000) 0).centre =
        (positions_after 0 (rms_window_len 48000) 0).newest -
          ((rms_window_len 48000 / 2 : ℕ) : ℤ)) ∧
    ¬ ((positions_after 0 (rms_window_len 44100) 0).centre =
        (positions_after 0 (rms_window_len 44100) 0).readpos -
          ((rms_window_len 44100 / 2 : ℕ) : ℤ)) := by
  constructor
  · decide
  · decide

/-- C2 amended: for every sample rate and every tick after priming (before
terminal EOF drain), the centre frame index lags the input read position by
exactly `ra_frame_cnt W = W - W/2` frames (which is `W/2` only when `W` is
even), and the newest admitted frame index exceeds the centre by
`ra_frame_cnt W - 1`. -/
theorem c2_centre_lag_amended (samplerate : ℕ) (start : ℤ) (k : ℕ) :
    (positions_after start (rms_window_len samplerate) k).centre =
      (positions_after start (rms_window_len samplerate) k).readpos -
        (ra_frame_cnt (rms_window_len samplerate) : ℤ) ∧
    (positions_after start (rms_window_len samplerate) k).newest =
      (positions_after start (rms_window_len samplerate) k).centre +
        (ra_frame_cnt (rms_window_len samplerate) : ℤ) - 1 := by
  rw [positions_after_spec]
  constructor <;> simp <;> ring

/-- C4 is a code bug: `parse_track_range` is documented (lines 845-853) to
terminate the program on an invalid range and its error message (line 875)
reads "Track range ... has end point before start", but the guard on
line 871 compares `options.end_frame_idx < options.start_frame_idx` — the
frame-range fields left at their defaults `SF_COUNT_MAX` and `0` — instead
of the just-stored track bounds.  Evaluating the parser at the reversed
track range `--track-range=5-2` under default options: it accepts. -/
theorem c4_track_range_bug :
    (parse_track_range 5 2 init_options).isSome = true ∧
    parse_track_range 5 2 init_options = some ⟨5, 2, 0, sf_count_max⟩ := by
  constructor
  · decide
  · decide

/-- Once `in_eof` is raised, a single `fetch_next_frame` call delivers a pad
and decrements `frames_remaining` while it is positive, and reports end of
stream otherwise. -/
theorem fetch_next_frame_eof (ra : ℕ) (s : FetchState) (he : s.in_eof = true) :
    fetch_next_frame ra s =
      if 0 < s.frames_remaining then
        (⟨s.in_eof, s.frames_remaining - 1, s.codec_left⟩, true, true)
      else (s, false, true) := by
  simp [fetch_next_frame, he]

/-- After EOF, the `n`-th further invocation (0-based) still reports more
frames exactly when `n < frames_remaining`, and always delivers a pad. -/
theorem fetch_more_eof (ra : ℕ) (n : ℕ) (s : FetchState) (he : s.in_eof = true) :
    (fetch_next_frame ra (fetch_iter ra n s)).2.1 = decide (n < s.frames_remaining) ∧
    (fetch_next_frame ra (fetch_iter ra n s)).2.2 = true := by
  induction n generalizing s with
  | zero =>
    by_cases h : 0 < s.frames_remaining <;>
      simp [fetch_iter, fetch_next_frame, he, h]
  | succ n ih =>
    by_cases h : 0 < s.frames_remaining
    · have hs : (fetch_next_frame ra s).1 = ⟨s.in_eof, s.frames_remaining - 1, s.codec_left⟩ := by
        simp [fetch_next_frame, he, h]
      have hrec := ih ⟨s.in_eof, s.frames_remaining - 1, s.codec_left⟩ he
      simp only [fetch_iter, hs]
      refine ⟨?_, hrec.2⟩
      rw [hrec.1]
      have hproj : (⟨s.in_eof, s.frames_remaining - 1, s.codec_left⟩ : FetchState).frames_remaining
          = s.frames_remaining - 1 := rfl
      rw [hproj, decide_eq_decide]
      omega
    · have hs : (fetch_next_frame ra s).1 = s := by
        simp [fetch_next_frame, he, h]
      have hrec := ih s he
      simp only [fetch_iter, hs]
      refine ⟨?_, hrec.2⟩
      rw [hrec.1]
      rw [decide_eq_decide]
      omega

/-- C5, as stated, is false at odd window lengths: at sample rate 44100 the
window is `W = 2205` frames, the claim promises exactly `W/2 = 1102` pad
invocations after the decoder reports EOF (frame range not expiring
earlier), yet the invocation with 0-based index `1102` — which the claim
says must already report end of stream — still returns `TRUE`: the drain
lasts `ra_frame_cnt W = 1103` invocations. -/
theorem c5_counterexample :
    (fetch_next_frame (ra_frame_cnt (rms_window_len 44100))
        (fetch_iter (ra_frame_cnt (rms_window_len 44100)) 1102
          (fetch_next_frame (ra_frame_cnt (rms_window_len 44100)) ⟨false, 5000, 0⟩).1)).2.1
      = true ∧
    rms_window_len 44100 / 2 = 1102 := by
  have hstate : (fetch_next_frame (ra_frame_cnt (rms_window_len 44100))
      (⟨false, 5000, 0⟩ : FetchState)).1 = ⟨true, 1103, 0⟩ := by decide
  constructor
  · rw [hstate]
    have h := fetch_more_eof (ra_frame_cnt (rms_window_len 44100)) 1102
      (⟨true, 1103, 0⟩ : FetchState) rfl
    rw [h.1]
    decide
  · decide

/-- C5 amended: on the call where the decoder first reports EOF (no decoder
frames left, range not yet exhausted), `fetch_next_frame` delivers a pad,
returns `TRUE`, raises `in_eof` and clamps the remaining count to
`min (frames_remaining - 1) (ra_frame_cnt W)` — which is
`ra_frame_cnt W = W - W/2` frames (i.e. `⌈W/2⌉`, not `W/2`) when the
configured frame range does not expire earlier; each of that many further
invocations delivers a zero-filled pad and returns `TRUE`, and every
invocation after that reports end of stream (returns `FALSE`). -/
theorem c5_eof_drain_amended (w : ℕ) (s : FetchState) (he : s.in_eof = false)
    (hc : s.codec_left = 0) (hr : 0 < s.frames_remaining) :
    (fetch_next_frame (ra_frame_cnt w) s).2.1 = true ∧
    (fetch_next_frame (ra_frame_cnt w) s).2.2 = true ∧
    (fetch_next_frame (ra_frame_cnt w) s).1 =
      ⟨true, min (s.frames_remaining - 1) (ra_frame_cnt w), 0⟩ ∧
    ∀ n,
      (fetch_next_frame (ra_frame_cnt w)
          (fetch_iter (ra_frame_cnt w) n (fetch_next_frame (ra_frame_cnt w) s).1)).2.1
        = decide (n < min (s.frames_remaining - 1) (ra_frame_cnt w)) ∧
      (fetch_next_frame (ra_frame_cnt w)
          (fetch_iter (ra_frame_cnt w) n (fetch_next_frame (ra_frame_cnt w) s).1)).2.2
        = true := by
  have hfirst : fetch_next_frame (ra_frame_cnt w) s =
      (⟨true, min (s.frames_remaining - 1) (ra_frame_cnt w), 0⟩, true, true) := by
    simp [fetch_next_frame, he, hc, hr]
  refine ⟨by rw [hfirst], by rw [hfirst], by rw [hfirst], ?_⟩
  intro n
  rw [hfirst]
  exact fetch_more_eof (ra_frame_cnt w) n _ rfl

/-- Witness for `c5_eof_drain_amended` at `W = 40`, three frames left in the
requested range and an immediately exhausted decoder. -/
theorem c5_witness :
    ((⟨false, 3, 0⟩ : FetchState).in_eof = false ∧
      (⟨false, 3, 0⟩ : FetchState).codec_left = 0 ∧
      0 < (⟨false, 3, 0⟩ : FetchState).frames_remaining) ∧
    ((fetch_next_frame (ra_frame_cnt 40) ⟨false, 3, 0⟩).2.1 = true ∧
      (fetch_next_frame (ra_frame_cnt 40) ⟨false, 3, 0⟩).2.2 = true ∧
      (fetch_next_frame (ra_frame_cnt 40) ⟨false, 3, 0⟩).1 =
        ⟨true, min (3 - 1) (ra_frame_cnt 40), 0⟩ ∧
      ∀ n,
        (fetch_next_frame (ra_frame_cnt 40)
            (fetch_iter (ra_frame_cnt 40) n (fetch_next_frame (ra_frame_cnt 40) ⟨false, 3, 0⟩).1)).2.1
          = decide (n < min (3 - 1) (ra_frame_cnt 40)) ∧
        (fetch_next_frame (ra_frame_cnt 40)
            (fetch_iter (ra_frame_cnt 40) n (fetch_next_frame (ra_frame_cnt 40) ⟨false, 3, 0⟩).1)).2.2
          = true) :=
  ⟨⟨rfl, rfl, by decide⟩, c5_eof_drain_amended 40 ⟨false, 3, 0⟩ rfl rfl (by decide)⟩

/-- Updating a two-level buffer at slot `p` and then reading channel `c`
is the same as updating the per-channel column function. -/
theorem update_buf_apply {w ch : ℕ} {α : Type} (f : Fin w → Fin ch → α) (p : Fin w)
    (v : Fin ch → α) (i : Fin w) (c : Fin ch) :
    Function.update f p v i c = Function.update (fun j => f j c) p (v c) i := by
  rcases eq_or_ne i p with rfl | h
  · simp
  · simp [Function.update_noteq h]

/-- One `filter_new_frame` step preserves the sum-of-squares accumulator
invariant, whatever ring slot it acts on. -/
theorem filter_new_frame_sum {w ch : ℕ} {α : Type} [CommRing α] (alpha : α)
    (dc : Fin ch → α) (en : Bool) (p : Fin w) (s : FilterState w ch α) (c : Fin ch)
    (h : s.x_sq_ttl c = ∑ i, s.sq_buf i c) :
    (filter_new_frame alpha dc en p s).x_sq_ttl c =
      ∑ i, (filter_new_frame alpha dc en p s).sq_buf i c := by
  simp only [filter_new_frame]
  rw [Finset.sum_congr rfl fun i _ => update_buf_apply s.sq_buf p _ i c]
  rw [Finset.sum_update_of_mem (Finset.mem_univ p)]
  rw [Finset.sdiff_singleton_eq_erase]
  rw [h]
  rw [← Finset.add_sum_erase Finset.univ (fun j => s.sq_buf j c) (Finset.mem_univ p)]
  ring

/-- The sum-of-squares invariant is preserved along any sequence of frame
admissions. -/
theorem run_filter_steps_sum {w ch : ℕ} {α : Type} [CommRing α] (alpha : α)
    (dc : Fin ch → α) (en : Bool) (steps : List (Fin w × (Fin ch → α)))
    (s : FilterState w ch α) (h : ∀ c, s.x_sq_ttl c = ∑ i, s.sq_buf i c) :
    ∀ c, (run_filter_steps alpha dc en steps s).x_sq_ttl c =
      ∑ i, (run_filter_steps alpha dc en steps s).sq_buf i c := by
  induction steps generalizing s with
  | nil => simpa [run_filter_steps] using h
  | cons st rest ih =>
    intro c
    simp only [run_filter_steps]
    apply ih
    intro c2
    apply filter_new_frame_sum
    simpa [fetch_write] using h c2

/-- C7: at every tick (any sequence of admitted frames, starting from the
zeroed state `init_state` leaves), for every channel `c` the accumulator
`x_sq_ttl[c]` equals the exact sum of the `w` squared sample values
currently resident in the `sq` ring for that channel; the step function
maintains it incrementally, subtracting the evicted square of the
overwritten slot before adding the new head square. -/
theorem c7_sum_sq_invariant {w ch : ℕ} {α : Type} [CommRing α] (alpha : α)
    (dc : Fin ch → α) (hpf_enabled : Bool) (steps : List (Fin w × (Fin ch → α)))
    (c : Fin ch) :
    (run_filter_steps alpha dc hpf_enabled steps (init_filter_state w ch α)).x_sq_ttl c =
      ∑ i, (run_filter_steps alpha dc hpf_enabled steps (init_filter_state w ch α)).sq_buf i c :=
  run_filter_steps_sum alpha dc hpf_enabled steps _ (fun c2 => by simp [init_filter_state]) c

/-- C9: with the high-pass filter disabled and every per-channel DC offset
zero, admitting a raw frame into slot `p` and running the filter stage
leaves the main ring exactly equal to the old ring with the raw input frame
written at `p`: the committed centre samples are bit-for-bit the input
samples, even though the HPF output is still computed on the side. -/
theorem c9_hpf_off_identity {w ch : ℕ} {α : Type} [CommRing α] (alpha : α)
    (p : Fin w) (frame : Fin ch → α) (s : FilterState w ch α) :
    (filter_new_frame alpha (fun _ => 0) false p (fetch_write p frame s)).main_buf =
      Function.update s.main_buf p frame := by
  funext i c
  simp only [filter_new_frame, fetch_write]
  rw [Function.update_idem]
  rcases eq_or_ne i p with rfl | hne
  · simp
  · simp [Function.update_noteq hne]

/-- The channel scan returns `TRUE` iff it started `TRUE` or some scanned
value strictly exceeds the threshold. -/
theorem signal_scan_eq_true_iff {α : Type} [LinearOrder α] (nsq : α) (l : List α)
    (res : Bool) :
    signal_scan nsq l res = true ↔ res = true ∨ ∃ y ∈ l, nsq < y := by
  induction l generalizing res with
  | nil => simp [signal_scan]
  | cons y rest ih =>
    cases res with
    | true => simp [signal_scan]
    | false =>
      simp only [signal_scan, Bool.false_eq_true, if_false, ih, decide_eq_true_eq]
      constructor
      · rintro (h | ⟨z, hz, hlt⟩)
        · exact Or.inr ⟨y, List.mem_cons_self y rest, h⟩
        · exact Or.inr ⟨z, List.mem_cons_of_mem y hz, hlt⟩
      · rintro (h | ⟨z, hz, hlt⟩)
        · exact absurd h (by simp)
        · rcases List.mem_cons.mp hz with rfl | hz2
          · exact Or.inl hlt
          · exact Or.inr ⟨z, hz2, hlt⟩

/-- `we_have_signal` is the existential over the first `numchannels`
channels. -/
theorem we_have_signal_iff {α : Type} [LinearOrder α] (numchannels : ℕ) (nsq : α)
    (x : ℕ → α) :
    we_have_signal numchannels nsq x = true ↔ ∃ c < numchannels, nsq < x c := by
  rw [we_have_signal, signal_scan_eq_true_iff]
  simp

/-- The base-2 formulation of the noise floor used by the source equals
`10 ^ (dbfs / 20)` in exact real arithmetic. -/
theorem x_nf_eq_ten_rpow (d : ℝ) : x_nf d = (10 : ℝ) ^ (d / 20) := by
  have hL : 0 < Real.logb 10 2 := Real.logb_pos (by norm_num) (by norm_num)
  have hne : Real.logb 10 2 ≠ 0 := ne_of_gt hL
  have h1 : d / (20 * Real.logb 10 2) = Real.logb 2 10 * (d / 20) := by
    rw [← Real.inv_logb]
    field_simp
    ring
  rw [x_nf, h1, Real.rpow_mul (by norm_num : (0 : ℝ) ≤ 2)]
  rw [Real.rpow_logb (by norm_num) (by norm_num) (by norm_num)]

/-- C6: for every detector state with `1 ≤ numchannels ≤ 8` channels,
`we_have_signal` returns `TRUE` iff the running sum of squares strictly
exceeds the precomputed threshold `x_nf² · w` for at least one channel,
where `x_nf = 10 ^ (noise_floor_dbfs / 20)` and `w` is the RMS window
length in frames. -/
theorem c6_signal_threshold (numchannels w : ℕ) (_hchans : 1 ≤ numchannels)
    (_hmax : numchannels ≤ 8) (d : ℝ) (x : ℕ → ℝ) :
    we_have_signal numchannels (n_x_nf_sq d w) x = true ↔
      ∃ c < numchannels, ((10 : ℝ) ^ (d / 20)) ^ 2 * (w : ℝ) < x c := by
  have ht : n_x_nf_sq d w = ((10 : ℝ) ^ (d / 20)) ^ 2 * (w : ℝ) := by
    rw [n_x_nf_sq, x_nf_eq_ten_rpow]
    ring
  rw [we_have_signal_iff, ht]

/-- Witness for `c6_signal_threshold` with 2 channels, a 3-frame window and
a noise floor of -6 dBFS. -/
theorem c6_witness :
    (1 ≤ 2 ∧ 2 ≤ 8) ∧
    (we_have_signal 2 (n_x_nf_sq (-6) 3) (fun _ => 1) = true ↔
      ∃ c < 2, ((10 : ℝ) ^ ((-6 : ℝ) / 20)) ^ 2 * ((3 : ℕ) : ℝ) < 1) :=
  ⟨⟨by norm_num, by norm_num⟩,
    c6_signal_threshold 2 3 (by norm_num) (by norm_num) (-6) (fun _ => 1)⟩

/-- `force_end_of_track` never changes the track counter (the increment on
line 1958 belongs to `update_context`). -/
theorem force_end_of_track_num (p : CutParams) (s : CutterState) :
    (force_end_of_track p s).1.cur_track_num = s.cur_track_num := by
  cases h : p.cut_point_action <;> simp only [force_end_of_track, h] <;> split <;> rfl

/-- `force_end_of_track` changes no field other than `out_open`. -/
theorem force_end_of_track_fields (p : CutParams) (s : CutterState) :
    (force_end_of_track p s).1.cut_context = s.cut_context ∧
    (force_end_of_track p s).1.cur_frame_pos = s.cur_frame_pos ∧
    (force_end_of_track p s).1.cur_track_start = s.cur_track_start ∧
    (force_end_of_track p s).1.time_to_live = s.time_to_live ∧
    (force_end_of_track p s).1.leadin_len = s.leadin_len ∧
    (force_end_of_track p s).1.fs = s.fs := by
  cases h : p.cut_point_action <;> simp only [force_end_of_track, h] <;> split <;>
    exact ⟨rfl, rfl, rfl, rfl, rfl, rfl⟩

/-- `countEnds` distributes over concatenation. -/
theorem countEnds_append (a b : List CutEvent) :
    countEnds (a ++ b) = countEnds a + countEnds b := by
  induction a with
  | nil => simp [countEnds]
  | cons e rest ih =>
    cases e with
    | commit => simpa [countEnds] using ih
    | leadinOverflow => simpa [countEnds] using ih
    | trackEnd n st en =>
      simp [countEnds, ih]
      omega

/-- `commit_current_frame` emits no track conclusion. -/
theorem countEnds_commit (p : CutParams) : countEnds (commit_current_frame p) = 0 := by
  simp only [commit_current_frame]
  split <;> simp [countEnds]

/-- `force_end_of_track` emits at most one track conclusion. -/
theorem force_end_countEnds (p : CutParams) (s : CutterState) :
    countEnds (force_end_of_track p s).2 ≤ 1 := by
  cases h : p.cut_point_action <;> simp only [force_end_of_track, h] <;> split <;>
    simp [countEnds]

/-- From `TRACK_ENDING` with an open output file (extraction) or in cut-log
mode, `force_end_of_track` emits exactly one track conclusion. -/
theorem force_end_countEnds_ending (p : CutParams) (s : CutterState)
    (h1 : s.cut_context = CutContext.TRACK_ENDING) (h2 : out_open_inv p s) :
    countEnds (force_end_of_track p s).2 = 1 := by
  cases h : p.cut_point_action
  · simp [force_end_of_track, h, h1, countEnds]
  · have ho : s.out_open = true := h2 h (Or.inr h1)
    simp [force_end_of_track, h, ho, countEnds]

/-- `leadin_buf_add` only touches the lead-in frame count and emits at most
the overflow warning. -/
theorem leadin_buf_add_fields (p : CutParams) (s : CutterState) :
    (leadin_buf_add p s).1.cut_context = s.cut_context ∧
    (leadin_buf_add p s).1.cur_track_num = s.cur_track_num ∧
    (leadin_buf_add p s).1.time_to_live = s.time_to_live ∧
    (leadin_buf_add p s).1.cur_track_start = s.cur_track_start ∧
    (leadin_buf_add p s).1.cur_frame_pos = s.cur_frame_pos ∧
    (leadin_buf_add p s).1.out_open = s.out_open ∧
    (leadin_buf_add p s).1.fs = s.fs ∧
    countEnds (leadin_buf_add p s).2 = 0 := by
  simp only [leadin_buf_add]
  split
  · split <;> exact ⟨rfl, rfl, rfl, rfl, rfl, rfl, rfl, rfl⟩
  · exact ⟨rfl, rfl, rfl, rfl, rfl, rfl, rfl, rfl⟩

/-- One `update_context` step increments `cur_track_num` by exactly the
number of track conclusions it emits. -/
theorem update_context_num (p : CutParams) (sig : Bool) (s : CutterState)
    (h : out_open_inv p s) :
    (update_context p sig s).1.cur_track_num =
      s.cur_track_num + countEnds (update_context p sig s).2 := by
  cases hc : s.cut_context with
  | SILENCE =>
    cases sig
    · simp [update_context, hc, countEnds]
    · simp only [update_context, hc, leadin_buf_add]
      split_ifs <;> simp [countEnds]
  | TRACK_STARTING =>
    cases sig
    · simp only [update_context, hc, leadin_buf_purge]
      split_ifs <;> simp [countEnds]
    · simp only [update_context, hc, leadin_buf_add, leadin_buf_purge, create_new_out_file,
        commit_current_frame]
      split_ifs <;> simp [countEnds]
  | TRACK_ENDING =>
    cases sig
    · by_cases httl : 0 < s.time_to_live
      · simp only [update_context, hc, httl, if_true, Bool.false_eq_true, if_false]
        simp [countEnds_commit]
      · simp only [update_context, hc, httl, Bool.false_eq_true, if_false]
        rw [countEnds_append, countEnds_commit, force_end_countEnds_ending p s hc h]
        rw [force_end_of_track_num]
    · simp [update_context, hc, countEnds_commit]
  | TRACK =>
    simp only [update_context, hc]
    split_ifs <;> simp [countEnds_commit]

/-- `update_context` preserves the open-output-file invariant. -/
theorem update_context_oinv (p : CutParams) (sig : Bool) (s : CutterState)
    (h : out_open_inv p s) : out_open_inv p (update_context p sig s).1 := by
  intro hpa hctx
  cases hc : s.cut_context <;> cases sig <;>
    simp [update_context, hc, leadin_buf_add, leadin_buf_purge, create_new_out_file]
      at hctx ⊢ <;>
    (try split_ifs at hctx ⊢) <;>
    first
      | rfl
      | exact h hpa hctx
      | exact h hpa (Or.inr hc)
      | exact h hpa (Or.inl hc)
      | exact absurd hpa (by assumption)
      | simp_all

/-- `driver_tick` only advances the frame position and the frame-source
state. -/
theorem driver_tick_fields (p : CutParams) (s : CutterState) :
    (driver_tick p s).1.cut_context = s.cut_context ∧
    (driver_tick p s).1.cur_track_num = s.cur_track_num ∧
    (driver_tick p s).1.cur_track_start = s.cur_track_start ∧
    (driver_tick p s).1.time_to_live = s.time_to_live ∧
    (driver_tick p s).1.leadin_len = s.leadin_len ∧
    (driver_tick p s).1.out_open = s.out_open ∧
    (driver_tick p s).1.cur_frame_pos = s.cur_frame_pos + 1 :=
  ⟨rfl, rfl, rfl, rfl, rfl, rfl, rfl⟩

/-- `driver_tick` preserves the open-output-file invariant. -/
theorem driver_tick_oinv (p : CutParams) (s : CutterState) (h : out_open_inv p s) :
    out_open_inv p (driver_tick p s).1 := by
  intro hpa hctx
  exact h hpa hctx

/-- Along the cutting loop, the track counter advances by exactly the
number of track conclusions in the loop event trace. -/
theorem cutter_loop_go_num (p : CutParams) (sig : ℕ → Bool) (fuel : ℕ) :
    ∀ s : CutterState, out_open_inv p s →
      (cutter_loop_go p sig fuel s).1.cur_track_num =
        s.cur_track_num + countEnds (cutter_loop_go p sig fuel s).2 := by
  induction fuel with
  | zero => intro s h; simp [cutter_loop_go, countEnds]
  | succ n ih =>
    intro s h
    have h1 := update_context_num p (sig s.cur_frame_pos) s h
    have h2 := update_context_oinv p (sig s.cur_frame_pos) s h
    have h3 := driver_tick_oinv p _ h2
    simp only [cutter_loop_go]
    split
    · rw [countEnds_append, ih _ h3]
      have h5 : (driver_tick p (update_context p (sig s.cur_frame_pos) s).1).1.cur_track_num =
          (update_context p (sig s.cur_frame_pos) s).1.cur_track_num := rfl
      rw [h5, h1]
      omega
    · have h5 : (driver_tick p (update_context p (sig s.cur_frame_pos) s).1).1.cur_track_num =
          (update_context p (sig s.cur_frame_pos) s).1.cur_track_num := rfl
      rw [h5, h1]

/-- C1, as stated, is false: in this concrete cut-log run (signal present
from the first frame, `min_signal_len` 1 frame, decoder delivering 3 frames
before EOF) the input ends while still in `TRACK`; the loop exit issues
`force_end_of_track`, which emits the one and only track conclusion of the
run, yet `cur_track_num` still holds its initial value 1 afterwards — the
EOF-forced end is NOT accompanied by an increment of the track counter. -/
theorem c1_counterexample :
    countEnds (cutter_loop ⟨CutPointAction.LOG_POINT, 1, 5, 0, 1000000, 1⟩ (fun _ => true)
        ⟨CutContext.SILENCE, 0, 0, 1, 0, 0, false, ⟨false, 10, 3⟩⟩).2.1 +
      countEnds (cutter_loop ⟨CutPointAction.LOG_POINT, 1, 5, 0, 1000000, 1⟩ (fun _ => true)
        ⟨CutContext.SILENCE, 0, 0, 1, 0, 0, false, ⟨false, 10, 3⟩⟩).2.2 = 1 ∧
    (cutter_loop ⟨CutPointAction.LOG_POINT, 1, 5, 0, 1000000, 1⟩ (fun _ => true)
        ⟨CutContext.SILENCE, 0, 0, 1, 0, 0, false, ⟨false, 10, 3⟩⟩).1.cur_track_num = 1 := by
  constructor
  · decide
  · decide

/-- C1 amended: `cur_track_num` is incremented exactly once per track end
confirmed by the `min_silence_len` dwell expiring (the `TRACK_ENDING` to
`SILENCE` transition): over any run the final counter equals the initial
counter plus the number of track conclusions in the loop event trace.  A
track end forced by `force_end_of_track` at loop exit (EOF drain) emits its
cut row / closes its file (at most one such conclusion, in the exit trace)
but does NOT increment the counter. -/
theorem c1_track_counter_amended (p : CutParams) (sig : ℕ → Bool) (s : CutterState)
    (h : out_open_inv p s) :
    (cutter_loop p sig s).1.cur_track_num =
      s.cur_track_num + countEnds (cutter_loop p sig s).2.1 ∧
    countEnds (cutter_loop p sig s).2.2 ≤ 1 := by
  simp only [cutter_loop]
  split
  · constructor
    · rw [force_end_of_track_num]
      exact cutter_loop_go_num p sig _ s h
    · exact force_end_countEnds _ _
  · exact ⟨cutter_loop_go_num p sig _ s h, by simp [countEnds]⟩

/-- Witness for `c1_track_counter_amended`: a cut-log run from the initial
`SILENCE` state. -/
theorem c1_witness :
    out_open_inv ⟨CutPointAction.LOG_POINT, 1, 5, 0, 1000000, 1⟩
      ⟨CutContext.SILENCE, 0, 0, 1, 0, 0, false, ⟨false, 10, 3⟩⟩ ∧
    ((cutter_loop ⟨CutPointAction.LOG_POINT, 1, 5, 0, 1000000, 1⟩ (fun _ => false)
        ⟨CutContext.SILENCE, 0, 0, 1, 0, 0, false, ⟨false, 10, 3⟩⟩).1.cur_track_num =
      1 + countEnds (cutter_loop ⟨CutPointAction.LOG_POINT, 1, 5, 0, 1000000, 1⟩ (fun _ => false)
        ⟨CutContext.SILENCE, 0, 0, 1, 0, 0, false, ⟨false, 10, 3⟩⟩).2.1 ∧
      countEnds (cutter_loop ⟨CutPointAction.LOG_POINT, 1, 5, 0, 1000000, 1⟩ (fun _ => false)
        ⟨CutContext.SILENCE, 0, 0, 1, 0, 0, false, ⟨false, 10, 3⟩⟩).2.2 ≤ 1) :=
  ⟨fun _ hctx => absurd hctx (by decide),
    c1_track_counter_amended ⟨CutPointAction.LOG_POINT, 1, 5, 0, 1000000, 1⟩ (fun _ => false)
      ⟨CutContext.SILENCE, 0, 0, 1, 0, 0, false, ⟨false, 10, 3⟩⟩
      (fun _ hctx => absurd hctx (by decide))⟩

/-- Frames committed by `commit_current_frame` trivially respect the
lockout (they are not track conclusions). -/
theorem end_respects_commit (mtl : ℕ) (p : CutParams) :
    ∀ e ∈ commit_current_frame p, end_respects_lockout mtl e = true := by
  intro e he
  simp only [commit_current_frame] at he
  split_ifs at he <;> simp at he
  subst he
  rfl

/-- If the current position has passed the lockout point, the conclusion
emitted by `force_end_of_track` respects the lockout. -/
theorem end_respects_force (p : CutParams) (s : CutterState)
    (h2 : s.cur_track_start + p.min_track_len ≤ s.cur_frame_pos) :
    ∀ e ∈ (force_end_of_track p s).2, end_respects_lockout p.min_track_len e = true := by
  intro e he
  cases hpc : p.cut_point_action <;> simp only [force_end_of_track, hpc] at he <;>
    split_ifs at he <;> simp at he <;> subst he <;>
    simp [end_respects_lockout, h2]

/-- `update_context` preserves the lockout invariant. -/
theorem update_context_lockout (p : CutParams) (sig : Bool) (s : CutterState)
    (h : lockout_inv p s) : lockout_inv p (update_context p sig s).1 := by
  intro hctx
  cases hc : s.cut_context <;> cases sig <;>
    simp [update_context, hc, leadin_buf_add, leadin_buf_purge, create_new_out_file]
      at hctx ⊢ <;>
    (try split_ifs at hctx ⊢) <;>
    first
      | exact h hc
      | assumption
      | simp_all

/-- Every track conclusion emitted by a single `update_context` step from a
state satisfying the lockout invariant respects the lockout. -/
theorem update_context_lockout_events (p : CutParams) (sig : Bool) (s : CutterState)
    (h : lockout_inv p s) :
    ∀ e ∈ (update_context p sig s).2, end_respects_lockout p.min_track_len e = true := by
  intro e he
  cases hc : s.cut_context with
  | SILENCE =>
    cases sig <;>
      simp only [update_context, hc, leadin_buf_add] at he <;>
      (try split_ifs at he) <;> simp at he <;> subst he <;> rfl
  | TRACK_STARTING =>
    cases sig <;>
      simp only [update_context, hc, leadin_buf_add, leadin_buf_purge,
        commit_current_frame, create_new_out_file] at he <;>
      (try split_ifs at he) <;> simp at he <;> subst he <;> rfl
  | TRACK =>
    simp only [update_context, hc] at he
    split_ifs at he <;> exact end_respects_commit p.min_track_len p e he
  | TRACK_ENDING =>
    cases sig with
    | false =>
      by_cases httl : 0 < s.time_to_live
      · simp [update_context, hc, httl] at he
        exact end_respects_commit p.min_track_len p e he
      · simp [update_context, hc, httl] at he
        rcases he with he | he
        · exact end_respects_commit p.min_track_len p e he
        · exact end_respects_force p s (h hc) e he
    | true =>
      simp [update_context, hc] at he
      exact end_respects_commit p.min_track_len p e he

/-- `driver_tick` preserves the lockout invariant (the position only
grows). -/
theorem driver_tick_lockout (p : CutParams) (s : CutterState) (h : lockout_inv p s) :
    lockout_inv p (driver_tick p s).1 := by
  intro hctx
  exact Nat.le_succ_of_le (h hctx)

/-- Every track conclusion emitted inside the cutting loop respects the
lockout. -/
theorem cutter_loop_go_lockout (p : CutParams) (sig : ℕ → Bool) (fuel : ℕ) :
    ∀ s, lockout_inv p s →
      ∀ e ∈ (cutter_loop_go p sig fuel s).2, end_respects_lockout p.min_track_len e = true := by
  induction fuel with
  | zero => intro s h e he; simp [cutter_loop_go] at he
  | succ n ih =>
    intro s h e he
    simp only [cutter_loop_go] at he
    split at he
    · simp only [List.mem_append] at he
      rcases he with he | he
      · exact update_context_lockout_events p _ s h e he
      · exact ih _ (driver_tick_lockout p _ (update_context_lockout p _ s h)) e he
    · exact update_context_lockout_events p _ s h e he

/-- C8, as stated, is false: in this concrete cut-log run
(`min_track_len = 100` frames, signal always present, decoder delivering 3
frames before EOF) the loop exits on EOF drain while still in `TRACK` and
`force_end_of_track` writes a cut row ending track 1 at frame 6, earlier
than `cur_track_start + min_track_len = 0 + 100`. -/
theorem c8_counterexample :
    (cutter_loop ⟨CutPointAction.LOG_POINT, 1, 5, 100, 1000000, 1⟩ (fun _ => true)
        ⟨CutContext.SILENCE, 0, 0, 1, 0, 0, false, ⟨false, 10, 3⟩⟩).2.2 =
      [CutEvent.trackEnd 1 0 6] ∧
    ¬ (0 + 100 ≤ 6) := by
  constructor
  · decide
  · decide

/-- C8 amended: no track is ended *by the silence path of the detector* (the
`min_silence_len` dwell expiring in `TRACK_ENDING`) at a frame index
earlier than `cur_track_start + min_track_len`, regardless of how long the
intervening silence is: every track conclusion in the loop event trace
respects the lockout.  A track truncated by `force_end_of_track` at loop
exit (EOF or range exhaustion) may end earlier. -/
theorem c8_lockout_amended (p : CutParams) (sig : ℕ → Bool) (fuel : ℕ) (s : CutterState)
    (h : lockout_inv p s) :
    ∀ e ∈ (cutter_loop_go p sig fuel s).2, end_respects_lockout p.min_track_len e = true :=
  cutter_loop_go_lockout p sig fuel s h

/-- Witness for `c8_lockout_amended`: a cut-log run from the initial
`SILENCE` state. -/
theorem c8_witness :
    lockout_inv ⟨CutPointAction.LOG_POINT, 1, 5, 100, 1000000, 1⟩
      ⟨CutContext.SILENCE, 0, 0, 1, 0, 0, false, ⟨false, 10, 3⟩⟩ ∧
    (∀ e ∈ (cutter_loop_go ⟨CutPointAction.LOG_POINT, 1, 5, 100, 1000000, 1⟩
        (fun _ => true) 11 ⟨CutContext.SILENCE, 0, 0, 1, 0, 0, false, ⟨false, 10, 3⟩⟩).2,
      end_respects_lockout 100 e = true) :=
  ⟨fun hctx => absurd hctx (by decide),
    c8_lockout_amended ⟨CutPointAction.LOG_POINT, 1, 5, 100, 1000000, 1⟩ (fun _ => true) 11
      ⟨CutContext.SILENCE, 0, 0, 1, 0, 0, false, ⟨false, 10, 3⟩⟩
      (fun hctx => absurd hctx (by decide))⟩

/-- C3, as stated, is false: `update_context` in `CCTX_TRACK_ENDING` calls
`commit_current_frame` before branching (line 1944), so on the final tick
(`¬sig`, `ttl = 0`, here in extraction mode) the centre frame IS committed
to the output file, against the claim that the final tick does not commit. -/
theorem c3_counterexample :
    CutEvent.commit ∈ (update_context ⟨CutPointAction.EXTRACT_TRACK, 2, 3, 4, 10, 1⟩ false
      ⟨CutContext.TRACK_ENDING, 0, 50, 1, 10, 0, true, ⟨false, 5, 5⟩⟩).2 := by
  decide

/-- C3 amended: in `TRACK_ENDING`, for every tick: on a true verdict the
machine returns to `TRACK`; on a false verdict with `ttl > 0` it stays in
`TRACK_ENDING` and decrements `ttl`; on a false verdict with `ttl = 0` it
performs `force_end_of_track`, moves to `SILENCE` and increments
`cur_track_num`.  The centre frame is committed on EVERY `TRACK_ENDING`
tick, including the final one. -/
theorem c3_track_ending_amended (p : CutParams) (s : CutterState)
    (h : s.cut_context = CutContext.TRACK_ENDING) :
    ((update_context p true s).1.cut_context = CutContext.TRACK ∧
      (update_context p true s).2 = commit_current_frame p) ∧
    (0 < s.time_to_live →
      (update_context p false s).1.cut_context = CutContext.TRACK_ENDING ∧
      (update_context p false s).1.time_to_live = s.time_to_live - 1 ∧
      (update_context p false s).2 = commit_current_frame p) ∧
    (s.time_to_live = 0 →
      (update_context p false s).1.cut_context = CutContext.SILENCE ∧
      (update_context p false s).1.cur_track_num = s.cur_track_num + 1 ∧
      (update_context p false s).2 = commit_current_frame p ++ (force_end_of_track p s).2) := by
  refine ⟨⟨?_, ?_⟩, fun httl => ?_, fun h0 => ?_⟩
  · simp [update_context, h]
  · simp [update_context, h]
  · refine ⟨?_, ?_, ?_⟩ <;> simp [update_context, h, httl]
  · refine ⟨?_, ?_, ?_⟩ <;> simp [update_context, h, h0, force_end_of_track_num]

/-- Witness for `c3_track_ending_amended` at a concrete `TRACK_ENDING`
state with dwell 2 in extraction mode. -/
theorem c3_witness :
    (⟨CutContext.TRACK_ENDING, 2, 50, 1, 10, 0, true, ⟨false, 5, 5⟩⟩ : CutterState).cut_context =
      CutContext.TRACK_ENDING ∧
    (((update_context ⟨CutPointAction.EXTRACT_TRACK, 2, 3, 4, 10, 1⟩ true
        ⟨CutContext.TRACK_ENDING, 2, 50, 1, 10, 0, true, ⟨false, 5, 5⟩⟩).1.cut_context =
        CutContext.TRACK ∧
      (update_context ⟨CutPointAction.EXTRACT_TRACK, 2, 3, 4, 10, 1⟩ true
        ⟨CutContext.TRACK_ENDING, 2, 50, 1, 10, 0, true, ⟨false, 5, 5⟩⟩).2 =
        commit_current_frame ⟨CutPointAction.EXTRACT_TRACK, 2, 3, 4, 10, 1⟩) ∧
    (0 < (⟨CutContext.TRACK_ENDING, 2, 50, 1, 10, 0, true, ⟨false, 5, 5⟩⟩ : CutterState).time_to_live →
      (update_context ⟨CutPointAction.EXTRACT_TRACK, 2, 3, 4, 10, 1⟩ false
        ⟨CutContext.TRACK_ENDING, 2, 50, 1, 10, 0, true, ⟨false, 5, 5⟩⟩).1.cut_context =
        CutContext.TRACK_ENDING ∧
      (update_context ⟨CutPointAction.EXTRACT_TRACK, 2, 3, 4, 10, 1⟩ false
        ⟨CutContext.TRACK_ENDING, 2, 50, 1, 10, 0, true, ⟨false, 5, 5⟩⟩).1.time_to_live =
        (⟨CutContext.TRACK_ENDING, 2, 50, 1, 10, 0, true, ⟨false, 5, 5⟩⟩ : CutterState).time_to_live - 1 ∧
      (update_context ⟨CutPointAction.EXTRACT_TRACK, 2, 3, 4, 10, 1⟩ false
        ⟨CutContext.TRACK_ENDING, 2, 50, 1, 10, 0, true, ⟨false, 5, 5⟩⟩).2 =
        commit_current_frame ⟨CutPointAction.EXTRACT_TRACK, 2, 3, 4, 10, 1⟩) ∧
    ((⟨CutContext.TRACK_ENDING, 2, 50, 1, 10, 0, true, ⟨false, 5, 5⟩⟩ : CutterState).time_to_live = 0 →
      (update_context ⟨CutPointAction.EXTRACT_TRACK, 2, 3, 4, 10, 1⟩ false
        ⟨CutContext.TRACK_ENDING, 2, 50, 1, 10, 0, true, ⟨false, 5, 5⟩⟩).1.cut_context =
        CutContext.SILENCE ∧
      (update_context ⟨CutPointAction.EXTRACT_TRACK, 2, 3, 4, 10, 1⟩ false
        ⟨CutContext.TRACK_ENDING, 2, 50, 1, 10, 0, true, ⟨false, 5, 5⟩⟩).1.cur_track_num =
        (⟨CutContext.TRACK_ENDING, 2, 50, 1, 10, 0, true, ⟨false, 5, 5⟩⟩ : CutterState).cur_track_num + 1 ∧
      (update_context ⟨CutPointAction.EXTRACT_TRACK, 2, 3, 4, 10, 1⟩ false
        ⟨CutContext.TRACK_ENDING, 2, 50, 1, 10, 0, true, ⟨false, 5, 5⟩⟩).2 =
        commit_current_frame ⟨CutPointAction.EXTRACT_TRACK, 2, 3, 4, 10, 1⟩ ++
          (force_end_of_track ⟨CutPointAction.EXTRACT_TRACK, 2, 3, 4, 10, 1⟩
            ⟨CutContext.TRACK_ENDING, 2, 50, 1, 10, 0, true, ⟨false, 5, 5⟩⟩).2)) :=
  ⟨rfl, c3_track_ending_amended ⟨CutPointAction.EXTRACT_TRACK, 2, 3, 4, 10, 1⟩
    ⟨CutContext.TRACK_ENDING, 2, 50, 1, 10, 0, true, ⟨false, 5, 5⟩⟩ rfl⟩

/-- `commit_current_frame` never emits the overflow warning. -/
theorem overflow_not_commit (p : CutParams) :
    CutEvent.leadinOverflow ∉ commit_current_frame p := by
  simp only [commit_current_frame]
  split_ifs <;> simp

/-- `force_end_of_track` never emits the overflow warning. -/
theorem overflow_not_force (p : CutParams) (s : CutterState) :
    CutEvent.leadinOverflow ∉ (force_end_of_track p s).2 := by
  cases hpc : p.cut_point_action <;> simp only [force_end_of_track, hpc] <;>
    split_ifs <;> simp

/-- One `update_context` step, provided `min_signal_len ≥ 1`, preserves the
lead-in accounting invariant and never reaches the overflow-warning branch
of `leadin_buf_add`. -/
theorem update_context_leadin (p : CutParams) (sig : Bool) (s : CutterState)
    (hmsl : 1 ≤ p.min_signal_len) (h : leadin_inv p s) :
    leadin_inv p (update_context p sig s).1 ∧
    CutEvent.leadinOverflow ∉ (update_context p sig s).2 := by
  cases hc : s.cut_context with
  | SILENCE =>
    cases sig with
    | false =>
      refine ⟨?_, ?_⟩ <;> simp only [update_context, hc, reduceIte]
      · exact h
      · simp
    | true =>
      by_cases hpa : p.cut_point_action = CutPointAction.EXTRACT_TRACK
      · have hlen : s.leadin_len = 0 := (h hpa).2 (by rw [hc]; decide)
        have hlt : s.leadin_len < p.min_signal_len := by omega
        refine ⟨?_, ?_⟩ <;>
          simp only [update_context, hc, reduceIte, leadin_buf_add, if_pos hpa, if_pos hlt]
        · intro hpa2
          refine ⟨fun _ => ⟨?_, ?_⟩, fun hne => absurd rfl hne⟩
          · show ((s.leadin_len + 1 : ℕ) : ℤ) + ((p.min_signal_len : ℤ) - 1) =
              (p.min_signal_len : ℤ)
            omega
          · show (0 : ℤ) ≤ (p.min_signal_len : ℤ) - 1
            omega
        · simp
      · refine ⟨?_, ?_⟩ <;>
          simp only [update_context, hc, reduceIte, leadin_buf_add, if_neg hpa]
        · intro hpa2
          exact absurd hpa2 hpa
        · simp
  | TRACK_STARTING =>
    cases sig with
    | false =>
      by_cases hpa : p.cut_point_action = CutPointAction.EXTRACT_TRACK
      · refine ⟨?_, ?_⟩ <;>
          simp only [update_context, hc, reduceIte, leadin_buf_purge, if_pos hpa]
        · intro hpa2
          exact ⟨(fun hK => nomatch hK), fun _ => rfl⟩
        · simp
      · refine ⟨?_, ?_⟩ <;>
          simp only [update_context, hc, reduceIte, leadin_buf_purge, if_neg hpa]
        · intro hpa2
          exact absurd hpa2 hpa
        · simp
    | true =>
      by_cases httl : 0 < s.time_to_live
      · by_cases hpa : p.cut_point_action = CutPointAction.EXTRACT_TRACK
        · have hsum := (h hpa).1 hc
          have hlt : s.leadin_len < p.min_signal_len := by omega
          refine ⟨?_, ?_⟩ <;>
            simp only [update_context, hc, reduceIte, if_pos httl, leadin_buf_add,
              if_pos hpa, if_pos hlt]
          · intro hpa2
            refine ⟨fun _ => ⟨?_, ?_⟩, fun hne => absurd rfl hne⟩
            · show ((s.leadin_len + 1 : ℕ) : ℤ) + (s.time_to_live - 1) =
                (p.min_signal_len : ℤ)
              omega
            · show (0 : ℤ) ≤ s.time_to_live - 1
              omega
          · simp
        · refine ⟨?_, ?_⟩ <;>
            simp only [update_context, hc, reduceIte, if_pos httl, leadin_buf_add, if_neg hpa]
          · intro hpa2
            exact absurd hpa2 hpa
          · simp
      · by_cases hpa : p.cut_point_action = CutPointAction.EXTRACT_TRACK
        · refine ⟨?_, ?_⟩ <;>
            simp only [update_context, hc, reduceIte, if_neg httl, if_pos hpa,
              create_new_out_file]
          · intro hpa2
            exact ⟨(fun hK => nomatch hK), fun _ => rfl⟩
          · exact overflow_not_commit p
        · refine ⟨?_, ?_⟩ <;>
            simp only [update_context, hc, reduceIte, if_neg httl, if_neg hpa]
          · intro hpa2
            exact absurd hpa2 hpa
          · exact overflow_not_commit p
  | TRACK_ENDING =>
    have hlen0 : p.cut_point_action = CutPointAction.EXTRACT_TRACK → s.leadin_len = 0 :=
      fun hpa => (h hpa).2 (by rw [hc]; decide)
    cases sig with
    | true =>
      refine ⟨?_, ?_⟩ <;> simp only [update_context, hc, reduceIte]
      · intro hpa2
        exact ⟨(fun hK => nomatch hK), fun _ => hlen0 hpa2⟩
      · exact overflow_not_commit p
    | false =>
      by_cases httl : 0 < s.time_to_live
      · refine ⟨?_, ?_⟩ <;> simp only [update_context, hc, reduceIte, if_pos httl]
        · intro hpa2
          exact ⟨(fun hK => nomatch hK), fun _ => hlen0 hpa2⟩
        · exact overflow_not_commit p
      · refine ⟨?_, ?_⟩ <;> simp only [update_context, hc, reduceIte, if_neg httl]
        · intro hpa2
          refine ⟨(fun hK => nomatch hK), fun _ => ?_⟩
          show (force_end_of_track p s).1.leadin_len = 0
          rw [(force_end_of_track_fields p s).2.2.2.2.1]
          exact hlen0 hpa2
        · intro hmem
          rcases List.mem_append.mp hmem with hmem | hmem
          · exact overflow_not_commit p hmem
          · exact overflow_not_force p s hmem
  | TRACK =>
    have hlen0 : p.cut_point_action = CutPointAction.EXTRACT_TRACK → s.leadin_len = 0 :=
      fun hpa => (h hpa).2 (by rw [hc]; decide)
    refine ⟨?_, ?_⟩ <;> simp only [update_context, hc]
    · split_ifs with hg
      · intro hpa2
        exact ⟨(fun hK => nomatch hK), fun _ => hlen0 hpa2⟩
      · intro hpa2
        exact ⟨(fun hK => nomatch hc.symm.trans hK), fun _ => hlen0 hpa2⟩
    · split_ifs <;> exact overflow_not_commit p

/-- `driver_tick` preserves the lead-in accounting invariant. -/
theorem driver_tick_leadin (p : CutParams) (s : CutterState) (h : leadin_inv p s) :
    leadin_inv p (driver_tick p s).1 := by
  intro hpa
  exact h hpa

/-- No overflow warning is ever emitted along the cutting loop when
`min_signal_len ≥ 1`. -/
theorem cutter_loop_go_no_overflow (p : CutParams) (sig : ℕ → Bool)
    (hmsl : 1 ≤ p.min_signal_len) (fuel : ℕ) :
    ∀ s, leadin_inv p s → CutEvent.leadinOverflow ∉ (cutter_loop_go p sig fuel s).2 := by
  induction fuel with
  | zero => intro s h; simp [cutter_loop_go]
  | succ n ih =>
    intro s h
    have hstep := update_context_leadin p (sig s.cur_frame_pos) s hmsl h
    simp only [cutter_loop_go]
    split
    · simp only [List.mem_append]
      intro hmem
      rcases hmem with hmem | hmem
      · exact hstep.2 hmem
      · exact ih _ (driver_tick_leadin p _ hstep.1) hmem
    · exact hstep.2

/-- C10: provided `min_signal_len ≥ 1`, the lead-in buffer never overflows —
a `TRACK_STARTING` stint appends at most `1 + (min_signal_len - 1)` frames
before the buffer is flushed (transition to `TRACK`) or purged (transition
to `SILENCE`), so the overflow-warning branch of `leadin_buf_add` is never
reached in any run; conversely, with `min_signal_len = 0` (extraction mode)
the buffer has zero capacity and the very first append on entering
`TRACK_STARTING` emits the warning and drops the frame. -/
theorem c10_leadin_bounds :
    (∀ (p : CutParams) (sig : ℕ → Bool) (s : CutterState), 1 ≤ p.min_signal_len →
        leadin_inv p s →
        CutEvent.leadinOverflow ∉ (cutter_loop p sig s).2.1 ∧
        CutEvent.leadinOverflow ∉ (cutter_loop p sig s).2.2) ∧
    (∀ (p : CutParams) (s : CutterState),
        p.cut_point_action = CutPointAction.EXTRACT_TRACK → p.min_signal_len = 0 →
        s.cut_context = CutContext.SILENCE →
        (update_context p true s).2 = [CutEvent.leadinOverflow] ∧
        (update_context p true s).1.leadin_len = s.leadin_len) := by
  constructor
  · intro p sig s hmsl h
    simp only [cutter_loop]
    split
    · exact ⟨cutter_loop_go_no_overflow p sig hmsl _ s h, overflow_not_force p _⟩
    · exact ⟨cutter_loop_go_no_overflow p sig hmsl _ s h, by simp⟩
  · intro p s hpa hms hctx
    refine ⟨?_, ?_⟩ <;>
      simp [update_context, hctx, leadin_buf_add, hpa, hms]

/-- Witness for `c10_leadin_bounds`: part one on an extraction run with
`min_signal_len = 1`, part two at a `SILENCE` state with
`min_signal_len = 0`. -/
theorem c10_witness :
    (1 ≤ (⟨CutPointAction.EXTRACT_TRACK, 1, 2, 3, 9, 1⟩ : CutParams).min_signal_len ∧
      leadin_inv ⟨CutPointAction.EXTRACT_TRACK, 1, 2, 3, 9, 1⟩
        ⟨CutContext.SILENCE, 0, 0, 1, 0, 0, false, ⟨false, 4, 2⟩⟩ ∧
      (CutEvent.leadinOverflow ∉ (cutter_loop ⟨CutPointAction.EXTRACT_TRACK, 1, 2, 3, 9, 1⟩
          (fun _ => true) ⟨CutContext.SILENCE, 0, 0, 1, 0, 0, false, ⟨false, 4, 2⟩⟩).2.1 ∧
        CutEvent.leadinOverflow ∉ (cutter_loop ⟨CutPointAction.EXTRACT_TRACK, 1, 2, 3, 9, 1⟩
          (fun _ => true) ⟨CutContext.SILENCE, 0, 0, 1, 0, 0, false, ⟨false, 4, 2⟩⟩).2.2)) ∧
    ((⟨CutPointAction.EXTRACT_TRACK, 0, 2, 3, 9, 1⟩ : CutParams).cut_point_action =
        CutPointAction.EXTRACT_TRACK ∧
      (⟨CutPointAction.EXTRACT_TRACK, 0, 2, 3, 9, 1⟩ : CutParams).min_signal_len = 0 ∧
      (⟨CutContext.SILENCE, 0, 7, 1, 0, 0, false, ⟨false, 4, 2⟩⟩ : CutterState).cut_context =
        CutContext.SILENCE ∧
      ((update_context ⟨CutPointAction.EXTRACT_TRACK, 0, 2, 3, 9, 1⟩ true
          ⟨CutContext.SILENCE, 0, 7, 1, 0, 0, false, ⟨false, 4, 2⟩⟩).2 =
          [CutEvent.leadinOverflow] ∧
        (update_context ⟨CutPointAction.EXTRACT_TRACK, 0, 2, 3, 9, 1⟩ true
          ⟨CutContext.SILENCE, 0, 7, 1, 0, 0, false, ⟨false, 4, 2⟩⟩).1.leadin_len = 0)) :=
  ⟨⟨by decide, (fun _ => ⟨(fun hK => nomatch hK), fun _ => rfl⟩),
      c10_leadin_bounds.1 ⟨CutPointAction.EXTRACT_TRACK, 1, 2, 3, 9, 1⟩ (fun _ => true)
        ⟨CutContext.SILENCE, 0, 0, 1, 0, 0, false, ⟨false, 4, 2⟩⟩ (by decide)
        (fun _ => ⟨(fun hK => nomatch hK), fun _ => rfl⟩)⟩,
    ⟨rfl, rfl, rfl,
      c10_leadin_bounds.2 ⟨CutPointAction.EXTRACT_TRACK, 0, 2, 3, 9, 1⟩
        ⟨CutContext.SILENCE, 0, 7, 1, 0, 0, false, ⟨false, 4, 2⟩⟩ rfl rfl rfl⟩⟩
